import Mathlib

/-!
Verification of the c-mail intelligence services (rules engine, classifier,
cleanup service) against their natural-language specification.

The TypeScript services are shallowly embedded as pure Lean functions:

* text is handled as `List Char` (JS strings), with `Char.toLower` modelling
  `toLowerCase` and explicit lexicographic comparison modelling JS `<`/`>`;
* the SQLite-backed `DatabaseService` becomes a `Store` record (a rule table in
  row order, which tracks creation order, an email table, and a trace of
  external side effects); `INSERT OR REPLACE INTO rules (id, name, enabled,
  conditions, actions, provider, priority, ...)` is modelled faithfully,
  including the fact that the statement does not write the `hit_count` and
  `last_hit` columns, so a replaced row gets their defaults (0 / NULL);
* the JS runtime services that are not pure (RegExp compilation, `Number`
  coercion of strings, `Date` parsing, the current time) are an explicit
  environment `JsEnv` of oracle functions, so that `new RegExp` failure,
  `NaN` and date arithmetic stay faithful without re-implementing them;
* provider calls (`archiveEmail`, `moveEmail`, ...) and `shell.openExternal`
  append to the store's effect trace instead of doing I/O.
-/

namespace CMail

/-- JS `s.toLowerCase()` viewed on the character list of `s`. -/
def lowerC (s : String) : List Char := s.toList.map Char.toLower

/-- JS `haystack.includes(needle)`: `n` occurs contiguously in the list. -/
def isInfixC (n : List Char) : List Char → Bool
  | [] => n.isEmpty
  | a :: t => n.isPrefixOf (a :: t) || isInfixC n t

/-- JS `<` on strings: lexicographic comparison by code unit. -/
def lexLtC : List Char → List Char → Bool
  | [], [] => false
  | [], _ :: _ => true
  | _ :: _, [] => false
  | a :: as, b :: bs =>
    if a.toNat < b.toNat then true
    else if b.toNat < a.toNat then false
    else lexLtC as bs

/-- Whitespace for JS `trim` (the characters the source data can contain). -/
def isWsC (c : Char) : Bool := c == ' ' || c == '\t' || c == '\n' || c == '\r'

/-- JS `s.trim()`: strip whitespace from both ends. -/
def trimC (l : List Char) : List Char :=
  ((l.dropWhile isWsC).reverse.dropWhile isWsC).reverse

/-- JS `a || b` for an optional string: `b` when `a` is null/undefined or empty
(falsy). -/
def jsOrS (a : Option String) (b : String) : String :=
  match a with
  | some s => if s = "" then b else s
  | none => b

/-- The impure JS runtime pieces the services call, as oracles.
`regexCompile` models `new RegExp(pattern, "i")`: `none` when the constructor
throws on a malformed pattern, otherwise the compiled case-insensitive test.
`parseNum` models `Number(string)` with `none` for `NaN`; `parseDate` models
`new Date(s).getTime()`; `now` models `new Date().toISOString()`. -/
structure JsEnv where
  regexCompile : String → Option (List Char → Bool)
  parseNum : List Char → Option Int
  parseDate : String → Int
  now : String

/-- An attachment descriptor (the fields the services read). -/
structure Attachment where
  name : String
  size : Nat
deriving DecidableEq

/-- A stored email message, as `DatabaseService.transformEmail` returns it.
`fromAddr`/`toAddrs` are the source's `from`/`to` (`from` and `to` are Lean
keywords). -/
structure Email where
  id : String
  accountId : String
  fromAddr : String
  fromName : Option String
  toAddrs : List String
  subject : String
  snippet : String
  body : Option String
  date : String
  isRead : Bool
  category : String
  attachments : List Attachment
  size : Nat
  unsubscribeLink : Option String
  hasUnsubscribe : Bool
deriving DecidableEq

/-- The all-empty email, used only as the default for `List.headD`. -/
def emptyEmail : Email :=
  { id := "", accountId := "", fromAddr := "", fromName := none, toAddrs := [],
    subject := "", snippet := "", body := none, date := "", isRead := false,
    category := "", attachments := [], size := 0, unsubscribeLink := none,
    hasUnsubscribe := false }

/-- A rule condition; `field` and `operator` are plain strings, as they arrive
from stored JSON, so unrecognized values are representable. -/
structure RuleCondition where
  field : String
  operator : String
  value : String
deriving DecidableEq

/-- A rule action (type tag plus optional value). -/
structure RuleAction where
  type : String
  value : Option String
deriving DecidableEq

/-- A stored rule row. `hitCount`/`lastHit` are the `hit_count`/`last_hit`
columns. Creation order is the row order of `Store.rules`. -/
structure Rule where
  id : String
  name : String
  enabled : Bool
  conditions : List RuleCondition
  actions : List RuleAction
  provider : Option String
  priority : Int
  hitCount : Nat
  lastHit : Option String
deriving DecidableEq

/-- An external side effect requested by the services: a provider call
(archive/delete/move/forward against the remote mailbox) or opening an
unsubscribe link in the browser. -/
inductive ExtEffect where
  | providerCall (kind : String) (accountId : String) (emailId : String) (arg : String)
  | openLink (url : String)
deriving DecidableEq

/-- The database state the services read and mutate, plus the trace of
external effects they request. `rules` is in row/creation order. -/
structure Store where
  rules : List Rule
  emails : List Email
  effects : List ExtEffect
deriving DecidableEq

/-- `SELECT * FROM rules WHERE id = ?` (ids are a primary key). -/
def getRule (st : Store) (id : String) : Option Rule :=
  st.rules.find? (fun r => r.id == id)

/-- `SELECT * FROM emails WHERE id = ?`. -/
def getEmail (st : Store) (id : String) : Option Email :=
  st.emails.find? (fun e => e.id == id)

/-- The row `DatabaseService.saveRule` actually writes: its
`INSERT OR REPLACE INTO rules (id, name, enabled, conditions, actions,
provider, priority, updated_at)` lists neither `hit_count` nor `last_hit`, so
the (re)inserted row carries those columns' defaults, 0 and NULL — the
`hitCount`/`lastHit` fields of the argument are dropped. -/
def dbRuleRow (r : Rule) : Rule :=
  { r with hitCount := 0, lastHit := none }

/-- `DatabaseService.saveRule`: `INSERT OR REPLACE` deletes any row with the
same id and inserts a fresh row (fresh rowid and `created_at`), so the new row
goes to the end of the table in creation-stamp order. -/
def dbSaveRule (st : Store) (r : Rule) : Store :=
  { st with rules := st.rules.filter (fun x => decide (x.id ≠ r.id)) ++ [dbRuleRow r] }

/-- `DatabaseService.deleteRule`: `DELETE FROM rules WHERE id = ?`. -/
def dbDeleteRule (st : Store) (id : String) : Store :=
  { st with rules := st.rules.filter (fun x => decide (x.id ≠ id)) }

/-- `DatabaseService.updateEmailCategory`: `UPDATE emails SET category = ?
WHERE id = ?`. -/
def updateEmailCategory (st : Store) (id : String) (category : String) : Store :=
  { st with emails := st.emails.map (fun e => if e.id = id then { e with category := category } else e) }

/-- `DatabaseService.markEmailsRead`. -/
def markEmailsRead (st : Store) (ids : List String) (read : Bool) : Store :=
  { st with emails := st.emails.map (fun e => if e.id ∈ ids then { e with isRead := read } else e) }

/-- Insert `a` into `l` keeping elements strictly greater (per `gt`) before it;
ties and smaller elements come after `a`, as in a stable descending sort. -/
def insertDesc (gt : α → α → Bool) (a : α) : List α → List α
  | [] => [a]
  | x :: xs => if gt x a then x :: insertDesc gt a xs else a :: x :: xs

/-- Stable sort placing greater elements (per `gt`) first; equal elements keep
their original order. Models both the JS stable `Array.prototype.sort` with a
`(a, b) => key(b) - key(a)` comparator and SQL `ORDER BY key DESC` over rows
whose secondary order is the row order. -/
def sortByDesc (gt : α → α → Bool) : List α → List α
  | [] => []
  | a :: l => insertDesc gt a (sortByDesc gt l)

/-- The comparator of `RulesEngine.applyRulesToEmail`'s
`rules.sort((a, b) => b.priority - a.priority)`: `a` strictly before `b` when
`a.priority` is larger. -/
def ruleGt (a b : Rule) : Bool := decide (b.priority < a.priority)

/-- `DatabaseService.getRules`: `SELECT * FROM rules ORDER BY priority DESC,
created_at`, i.e. a stable descending-priority sort of the rows. -/
def getRules (st : Store) : List Rule := sortByDesc ruleGt st.rules

/-- `ORDER BY date DESC` comparator on the raw date text (SQLite compares TEXT
lexicographically). -/
def emailDateGt (a b : Email) : Bool := lexLtC b.date.toList a.date.toList

/-- `DatabaseService.getEmails({limit})`: all emails, newest date text first,
truncated to the limit. -/
def getEmailsLimit (st : Store) (limit : Nat) : List Email :=
  (sortByDesc emailDateGt st.emails).take limit

/-- The `string | number | boolean` value `matchesCondition` extracts from the
email before applying the operator. -/
inductive FieldValue where
  | s (v : List Char)
  | n (v : Nat)
  | b (v : Bool)
deriving DecidableEq

/-- JS `String(fieldValue)`. -/
def FieldValue.toStrC : FieldValue → List Char
  | .s v => v
  | .n v => (toString v).toList
  | .b v => if v then "true".toList else "false".toList

/-- JS `Number(fieldValue)` (`none` is `NaN`). -/
def FieldValue.toNum (env : JsEnv) : FieldValue → Option Int
  | .s v => env.parseNum v
  | .n v => some (v : Int)
  | .b v => some (if v then 1 else 0)

/-- The `switch (condition.field)` of `RulesEngine.matchesCondition`: extract
the field value, lower-casing the textual fields (the date stays raw); an
unrecognized field yields `none`, which the caller turns into `false`. -/
def getFieldValue (email : Email) (field : String) : Option FieldValue :=
  if field = "from" then some (.s (lowerC email.fromAddr))
  else if field = "to" then some (.s (lowerC (String.intercalate " " email.toAddrs)))
  else if field = "subject" then some (.s (lowerC email.subject))
  else if field = "body" then some (.s (lowerC (jsOrS email.body email.snippet)))
  else if field = "category" then some (.s (lowerC email.category))
  else if field = "date" then some (.s email.date.toList)
  else if field = "hasAttachment" then some (.b (decide (0 < email.attachments.length)))
  else if field = "size" then some (.n email.size)
  else none

/-- `RulesEngine.matchesCondition`: operator dispatch over the extracted field
value against the lower-cased condition value (`regex` gets the raw pattern; a
pattern the `RegExp` constructor rejects is caught and yields `false`); an
unrecognized operator yields `false`. -/
def matchesCondition (env : JsEnv) (email : Email) (c : RuleCondition) : Bool :=
  match getFieldValue email c.field with
  | none => false
  | some fv =>
    let conditionValue := lowerC c.value
    if c.operator = "contains" then isInfixC conditionValue fv.toStrC
    else if c.operator = "equals" then decide (fv.toStrC = conditionValue)
    else if c.operator = "startsWith" then conditionValue.isPrefixOf fv.toStrC
    else if c.operator = "endsWith" then conditionValue.isSuffixOf fv.toStrC
    else if c.operator = "regex" then
      match env.regexCompile c.value with
      | none => false
      | some m => m fv.toStrC
    else if c.operator = "before" then lexLtC fv.toStrC conditionValue
    else if c.operator = "after" then lexLtC conditionValue fv.toStrC
    else if c.operator = "greaterThan" then
      match fv.toNum env, env.parseNum c.value.toList with
      | some a, some b => decide (b < a)
      | _, _ => false
    else if c.operator = "lessThan" then
      match fv.toNum env, env.parseNum c.value.toList with
      | some a, some b => decide (a < b)
      | _, _ => false
    else false

/-- `RulesEngine.matchesConditions`: AND over the condition list (the loop
returns `false` at the first failing condition). -/
def matchesConditions (env : JsEnv) (email : Email) (conditions : List RuleCondition) : Bool :=
  conditions.all (matchesCondition env email)

/-- One arm of `RulesEngine.executeActions`' switch: provider-delegated
actions append an external call, `markRead`/`markUnread`/`categorize` mutate
the store, `label` and unknown types do nothing. `a.value!` (TS non-null
assertion) is modelled with the empty-string default. -/
def executeAction (st : Store) (email : Email) (a : RuleAction) : Store :=
  if a.type = "move" then
    { st with effects := st.effects ++ [.providerCall "move" email.accountId email.id (a.value.getD "")] }
  else if a.type = "archive" then
    { st with effects := st.effects ++ [.providerCall "archive" email.accountId email.id ""] }
  else if a.type = "delete" then
    { st with effects := st.effects ++ [.providerCall "delete" email.accountId email.id ""] }
  else if a.type = "markRead" then markEmailsRead st [email.id] true
  else if a.type = "markUnread" then markEmailsRead st [email.id] false
  else if a.type = "categorize" then updateEmailCategory st email.id (a.value.getD "")
  else st

/-- `RulesEngine.executeActions`: run the actions in declaration order (each
action's failure is caught and logged, so every action is attempted). -/
def executeActions (st : Store) (email : Email) (actions : List RuleAction) : Store :=
  actions.foldl (fun s a => executeAction s email a) st

/-- The loop body of `RulesEngine.applyRulesToEmail`: for each rule whose full
condition set matches, append its actions to the result, save the rule with
`hitCount + 1` and `lastHit = now` (which `dbSaveRule` then drops on the way
to the table), and execute the actions. -/
def applyLoop (env : JsEnv) (email : Email) : List Rule → Store → List RuleAction → List RuleAction × Store
  | [], st, acc => (acc, st)
  | r :: rs, st, acc =>
    if matchesConditions env email r.conditions then
      let st1 := dbSaveRule st { r with hitCount := r.hitCount + 1, lastHit := some env.now }
      let st2 := executeActions st1 email r.actions
      applyLoop env email rs st2 (acc ++ r.actions)
    else applyLoop env email rs st acc

/-- The rule list `applyRulesToEmail` iterates: the stored rules (already
ordered `priority DESC, created_at` by `getRules`), filtered to the enabled
ones, then stable-sorted again by descending priority. -/
def evalOrder (st : Store) : List Rule :=
  sortByDesc ruleGt ((getRules st).filter (fun r => r.enabled))

/-- `RulesEngine.applyRulesToEmail`: returns the concatenated actions of the
matching rules and the resulting store. -/
def applyRulesToEmail (env : JsEnv) (st : Store) (email : Email) : List RuleAction × Store :=
  applyLoop env email (evalOrder st) st []

/-- A `Partial<Rule>` update object (the fields `updateRule` can overwrite;
`id` is never passed by the callers and is omitted). -/
structure RuleUpdates where
  name : Option String := none
  enabled : Option Bool := none
  conditions : Option (List RuleCondition) := none
  actions : Option (List RuleAction) := none
  provider : Option (Option String) := none
  priority : Option Int := none
  hitCount : Option Nat := none
  lastHit : Option (Option String) := none

/-- JS object spread `{ ...existing, ...updates }`. -/
def applyUpdates (r : Rule) (u : RuleUpdates) : Rule :=
  { id := r.id, name := u.name.getD r.name, enabled := u.enabled.getD r.enabled,
    conditions := u.conditions.getD r.conditions, actions := u.actions.getD r.actions,
    provider := u.provider.getD r.provider, priority := u.priority.getD r.priority,
    hitCount := u.hitCount.getD r.hitCount, lastHit := u.lastHit.getD r.lastHit }

/-- `RulesEngine.updateRule`: throws `'Rule not found'` when the id has no row
(leaving the store untouched); otherwise saves the merged rule and returns the
row the database then holds. -/
def updateRule (st : Store) (ruleId : String) (updates : RuleUpdates) : Except String Rule × Store :=
  match getRule st ruleId with
  | none => (.error "Rule not found", st)
  | some existing =>
    let updated := applyUpdates existing updates
    (.ok (dbRuleRow updated), dbSaveRule st updated)

/-- `RulesEngine.deleteRule`: delegates straight to the database delete, with
no existence check and no error. -/
def deleteRule (st : Store) (ruleId : String) : Except String Unit × Store :=
  (.ok (), dbDeleteRule st ruleId)

/-- What `RulesEngine.testRule` returns. -/
structure TestOutcome where
  matchingEmails : List Email
  totalMatches : Nat
deriving DecidableEq

/-- `RulesEngine.testRule`: throws `'Rule not found'` for a missing id;
otherwise evaluates the rule's conditions over the 1000 most recent emails,
returning at most 10 sample matches and the total match count. No action is
executed and nothing is saved. -/
def testRule (env : JsEnv) (st : Store) (ruleId : String) : Except String TestOutcome × Store :=
  match getRule st ruleId with
  | none => (.error "Rule not found", st)
  | some rule =>
    let allEmails := getEmailsLimit st 1000
    let matching := allEmails.filter (fun e => matchesConditions env e rule.conditions)
    (.ok { matchingEmails := matching.take 10, totalMatches := matching.length }, st)

/-- What `CleanupService.bulkUnsubscribe` returns. -/
structure UnsubOutcome where
  processed : Nat
  skipped : Nat
  links : List String
deriving DecidableEq

/-- JS truthiness of `email?.unsubscribeLink`: a link is "present" only when
the message exists, the field is non-null and the string is non-empty (an
empty string is falsy in JS). -/
def jsTruthyLink : Option Email → Option String
  | some e =>
    match e.unsubscribeLink with
    | some l => if l = "" then none else some l
    | none => none
  | none => none

/-- The loop of `CleanupService.bulkUnsubscribe`: a truthy unsubscribe link is
collected, opened externally and counted processed; otherwise the id is
counted skipped. -/
def bulkGo (st : Store) : List String → UnsubOutcome → UnsubOutcome × Store
  | [], acc => (acc, st)
  | id :: rest, acc =>
    match jsTruthyLink (getEmail st id) with
    | some link =>
      bulkGo { st with effects := st.effects ++ [.openLink link] } rest
        { acc with processed := acc.processed + 1, links := acc.links ++ [link] }
    | none => bulkGo st rest { acc with skipped := acc.skipped + 1 }

/-- `CleanupService.bulkUnsubscribe`. -/
def bulkUnsubscribe (st : Store) (emailIds : List String) : UnsubOutcome × Store :=
  bulkGo st emailIds { processed := 0, skipped := 0, links := [] }

/-- The grouping key of `CleanupService.findDuplicates`:
`[subject.toLowerCase().trim(), from.toLowerCase(),
snippet.substring(0, 50).toLowerCase()].join('|')`. -/
def dupKey (e : Email) : List Char :=
  trimC (lowerC e.subject) ++ '|' :: lowerC e.fromAddr ++ '|' :: (e.snippet.toList.take 50).map Char.toLower

/-- A duplicate group as `findDuplicates` returns it (`fromAddr` is the
source's `from` field). -/
structure DupGroup where
  hash : List Char
  emails : List Email
  subject : String
  fromAddr : String
deriving DecidableEq

/-- The keys of a JS `Map` built by insertion: first occurrences, in order. -/
def firstKeys : List (List Char) → List (List Char)
  | [] => []
  | k :: ks => k :: (firstKeys ks).filter (fun x => decide (x ≠ k))

/-- The comparator of the in-group `sort((a, b) => new Date(b.date).getTime()
- new Date(a.date).getTime())`: newest first. -/
def dupDateGt (env : JsEnv) (a b : Email) : Bool :=
  decide (env.parseDate b.date < env.parseDate a.date)

/-- `CleanupService.findDuplicates` over a message list (the source feeds it
`getEmails({accountId, limit: 5000})`): group by `dupKey`, keep the groups
with more than one member, and sort each kept group newest-first. -/
def findDuplicateGroups (env : JsEnv) (emails : List Email) : List DupGroup :=
  let keys := firstKeys (emails.map dupKey)
  let groups := keys.map (fun k => (k, emails.filter (fun e => decide (dupKey e = k))))
  (groups.filter (fun g => decide (1 < g.2.length))).map (fun g =>
    let sorted := sortByDesc (dupDateGt env) g.2
    { hash := g.1, emails := sorted,
      subject := (sorted.headD emptyEmail).subject,
      fromAddr := (sorted.headD emptyEmail).fromAddr })

/-- `attachments.reduce((sum, att) => sum + (att.size || 0), 0)`. -/
def sumAttachmentSizes (e : Email) : Nat :=
  (e.attachments.map (fun a => a.size)).sum

/-- `CleanupService.findLargeAttachments` over a message list (the source
feeds it `getEmails({accountId, limit: 5000})`): `options.minSize || 5 * 1024
* 1024` makes an absent — or zero, since `0` is falsy — threshold default to
5 MiB; keep the messages whose summed attachment sizes reach the threshold. -/
def findLargeAttachments (minSize : Option Nat) (emails : List Email) : List Email :=
  let m := match minSize with
    | some n => if n = 0 then 5 * 1024 * 1024 else n
    | none => 5 * 1024 * 1024
  emails.filter (fun e => decide (m ≤ sumAttachmentSizes e))

/-- A category definition of `EmailClassifier`: content patterns and sender
patterns are the compiled `RegExp.test` predicates (kept abstract, supplied by
the `rx` parameter of `categoryPatternsCfg`), keywords are literal strings. -/
structure CategoryPattern where
  id : String
  name : String
  patterns : List (List Char → Bool)
  senderPatterns : List (List Char → Bool)
  keywords : List String
  weight : ℚ

/-- The classifier's content text: `[subject, snippet,
body?.substring(0, 2000) || ''].join(' ').toLowerCase()`. -/
def fullTextOf (e : Email) : List Char :=
  (e.subject.toList ++ ' ' :: e.snippet.toList ++ ' ' :: (e.body.getD "").toList.take 2000).map Char.toLower

/-- The classifier's sender text: `[from, fromName || ''].join(' ')
.toLowerCase()`. -/
def senderTextOf (e : Email) : List Char :=
  (e.fromAddr.toList ++ ' ' :: (e.fromName.getD "").toList).map Char.toLower

/-- One category's accumulated score in `EmailClassifier.classify`: `2 *
weight` per matching content pattern, `3 * weight` per matching sender
pattern, `0.5 * weight` per keyword literally present in the content. -/
def scoreOf (e : Email) (c : CategoryPattern) : ℚ :=
  let s1 := c.patterns.foldl (fun s p => if p (fullTextOf e) then s + 2 * c.weight else s) 0
  let s2 := c.senderPatterns.foldl (fun s p => if p (senderTextOf e) then s + 3 * c.weight else s) s1
  c.keywords.foldl (fun s k => if isInfixC (lowerC k) (fullTextOf e) then s + (0.5 : ℚ) * c.weight else s) s2

/-- The classifier's `extractedKeywords`: keywords found in the content, in
order of first match over the configuration, deduplicated. -/
def collectKeywords (e : Email) (cfg : List CategoryPattern) : List String :=
  cfg.foldl (fun acc c =>
    c.keywords.foldl (fun acc2 k =>
      if isInfixC (lowerC k) (fullTextOf e) && !(acc2.contains k) then acc2 ++ [k] else acc2) acc) []

/-- JS `Map.set` on an association list in insertion order: overwrite in
place, or append a new key at the end. -/
def jsMapSet (key : String) (v : ℚ) (l : List (String × ℚ)) : List (String × ℚ) :=
  if l.any (fun p => p.1 == key) then l.map (fun p => if p.1 == key then (p.1, v) else p)
  else l ++ [(key, v)]

/-- JS `Map.get` (`none` is `undefined`). -/
def jsMapGet (key : String) (l : List (String × ℚ)) : Option ℚ :=
  (l.find? (fun p => p.1 == key)).map (fun p => p.2)

/-- The `scores` map after the generic per-category pass of `classify`, in
insertion order. -/
def genericScores (cfg : List CategoryPattern) (e : Email) : List (String × ℚ) :=
  cfg.foldl (fun sc c => jsMapSet c.id (scoreOf e c) sc) []

/-- The `scores` map after the special handling of unsubscribe-carrying mail:
`scores.set('marketing', (scores.get('marketing') || 0) + 1)`. -/
def finalScores (cfg : List CategoryPattern) (e : Email) : List (String × ℚ) :=
  if e.hasUnsubscribe then
    jsMapSet "marketing" ((jsMapGet "marketing" (genericScores cfg e)).getD 0 + 1) (genericScores cfg e)
  else genericScores cfg e

/-- The winner-selection loop of `classify`: start from `('uncategorized', 0)`
and replace the best entry whenever a score is strictly higher. -/
def bestOf (l : List (String × ℚ)) : String × ℚ :=
  l.foldl (fun best p => if best.2 < p.2 then p else best) ("uncategorized", 0)

/-- The first urgency regex of `calculateImportance` — an alternation of
literals, so its case-insensitive test is an exact substring check. -/
def urgentLits1 : List String :=
  ["urgent", "important", "critical", "priority", "immediate", "asap", "action required", "deadline"]

/-- The second urgency regex of `calculateImportance`, likewise an alternation
of literals. -/
def urgentLits2 : List String :=
  ["please respond", "please reply", "please confirm", "awaiting your", "your input"]

/-- Alternation-of-literals regex test over lowered text. -/
def litAltMatch (lits : List String) (t : List Char) : Bool :=
  lits.any (fun w => isInfixC w.toList t)

/-- `EmailClassifier.calculateImportance`: base 0.5, +0.2 per urgency pattern
family found in subject+snippet, a fixed per-category adjustment, +0.1 when
the winning score exceeds 5, clamped to [0, 1]. -/
def calculateImportance (e : Email) (category : String) (categoryScore : ℚ) : ℚ :=
  let fullText := (e.subject.toList ++ ' ' :: e.snippet.toList).map Char.toLower
  let i1 : ℚ := if litAltMatch urgentLits1 fullText then (0.5 : ℚ) + 0.2 else 0.5
  let i2 : ℚ := if litAltMatch urgentLits2 fullText then i1 + 0.2 else i1
  let i3 : ℚ :=
    if category = "important" then i2 + 0.3
    else if category = "financial" then i2 + 0.15
    else if category = "bills" then i2 + 0.1
    else if category = "travel" then i2 + 0.1
    else if category = "marketing" then i2 - 0.2
    else if category = "social" then i2 - 0.1
    else i2
  let i4 : ℚ := if 5 < categoryScore then i3 + 0.1 else i3
  max 0 (min 1 i4)

/-- What `EmailClassifier.classify` returns. -/
structure ClassifyOutcome where
  category : String
  confidence : ℚ
  importance : ℚ
  keywords : List String

/-- `EmailClassifier.classify` over a configuration: score every category,
apply the marketing unsubscribe bonus, pick the best score strictly above
zero (else `uncategorized`), normalize the confidence by 10, compute the
importance, and report at most 10 extracted keywords. -/
def classify (cfg : List CategoryPattern) (e : Email) : ClassifyOutcome :=
  let sc := finalScores cfg e
  let best := bestOf sc
  { category := best.1,
    confidence := min 1 (best.2 / 10),
    importance := calculateImportance e best.1 best.2,
    keywords := (collectKeywords e cfg).take 10 }

/-- The eight `categoryPatterns` of `EmailClassifier.initialize`, with the
source's regex patterns compiled by the oracle `rx` and the source's keyword
lists and weights. -/
def categoryPatternsCfg (rx : String → List Char → Bool) : List CategoryPattern :=
  [{ id := "financial", name := "Financial",
     patterns := [
       rx "statement|transaction|balance|deposit|withdrawal|payment (received|sent)|credit (card|limit)|bank account|investment|portfolio|dividend|interest (rate|earned)|wire transfer|ach|routing number",
       rx "your .*(statement|account|balance)|account ending in \\d+"],
     senderPatterns := [
       rx "bank|chase|wells ?fargo|bofa|bank of america|citibank|capital ?one|discover|amex|american express|fidelity|schwab|vanguard|td ameritrade|robinhood|coinbase|paypal|venmo|stripe|square"],
     keywords := ["bank", "statement", "balance", "transaction", "payment", "credit", "debit", "investment", "portfolio", "dividend", "interest"],
     weight := 1.2 },
   { id := "hr", name := "HR/Recruitment",
     patterns := [
       rx "job (offer|application|opportunity)|position at|interview (scheduled|invitation|request)|we('d| would) like to (invite|interview)|your (application|resume)|hiring manager|recruiter|talent acquisition|compensation|benefits package|offer letter|background check|onboarding",
       rx "thank you for (applying|your interest)|unfortunately.*(not|unable).*position"],
     senderPatterns := [
       rx "linkedin|indeed|glassdoor|monster|ziprecruiter|greenhouse|lever|workday|taleo|icims|jobvite|careers?@|recruiting?@|hr@|talent@|people@"],
     keywords := ["job", "interview", "application", "resume", "offer", "position", "recruiter", "hiring", "salary", "benefits"],
     weight := 1.1 },
   { id := "marketing", name := "Marketing/Ads",
     patterns := [
       rx "unsubscribe|email preferences|manage (your )?subscriptions|opt.out|sale|% off|\\$\\d+ off|promo(tion)? code|coupon|limited time|act now|don't miss|exclusive (offer|deal|access)|flash sale|clearance|shop now|buy now|order now|free shipping",
       rx "newsletter|weekly digest|monthly update|special offer|member exclusive|subscriber"],
     senderPatterns := [
       rx "newsletter|promo|marketing|deals|offers|noreply|no-reply|news@|info@|hello@|contact@"],
     keywords := ["sale", "discount", "promo", "offer", "unsubscribe", "deal", "coupon", "newsletter", "exclusive", "limited"],
     weight := 0.9 },
   { id := "important", name := "Important",
     patterns := [
       rx "urgent|important|action required|immediate attention|deadline|asap|critical|priority|time.sensitive|expires? (today|soon|tomorrow)|respond by|reply by|final notice|last chance|account (suspended|locked|compromised)",
       rx "please (respond|reply|confirm|review)|your input (needed|required)|awaiting your"],
     senderPatterns := [],
     keywords := ["urgent", "important", "deadline", "asap", "critical", "priority", "action", "required", "immediate"],
     weight := 1.5 },
   { id := "social", name := "Social",
     patterns := [
       rx "new connection|wants to connect|accepted your (invitation|request)|endorsed you|commented on|liked your|mentioned you|tagged you|sent you a message|new follower|friend request|birthday|congratulations",
       rx "activity on your (post|photo|video)|someone (viewed|liked|commented)"],
     senderPatterns := [
       rx "linkedin|facebook|twitter|x\\.com|instagram|tiktok|snapchat|pinterest|reddit|discord|slack|whatsapp|telegram|signal|messenger"],
     keywords := ["connect", "follow", "like", "comment", "share", "mention", "tag", "friend", "profile", "notification"],
     weight := 0.8 },
   { id := "shopping", name := "Shopping",
     patterns := [
       rx "order (confirmation|shipped|delivered|placed)|your (order|package|shipment|delivery)|tracking (number|information)|estimated delivery|shipped via|out for delivery|has been delivered|receipt for|thank you for your (purchase|order)|return (label|request|policy)",
       rx "item in your cart|wishlist|back in stock|price drop"],
     senderPatterns := [
       rx "amazon|ebay|walmart|target|bestbuy|costco|macys|nordstrom|zappos|etsy|shopify|stripe|square|orders?@|shipping@|tracking@"],
     keywords := ["order", "shipping", "delivery", "tracking", "receipt", "purchase", "package", "cart", "checkout", "return"],
     weight := 1.0 },
   { id := "travel", name := "Travel",
     patterns := [
       rx "flight (confirmation|itinerary|booking|reservation)|hotel (reservation|booking|confirmation)|booking confirmation|check.in|check.out|boarding pass|e.?ticket|travel (itinerary|confirmation)|car rental|airport|departure|arrival|gate",
       rx "your trip to|upcoming reservation|reservation confirmed"],
     senderPatterns := [
       rx "airlines?|hotels?\\.com|airbnb|booking\\.com|expedia|kayak|hopper|tripadvisor|marriott|hilton|hyatt|delta|united|american|southwest|jetblue|uber|lyft"],
     keywords := ["flight", "hotel", "booking", "reservation", "travel", "trip", "itinerary", "boarding", "departure", "arrival"],
     weight := 1.1 },
   { id := "bills", name := "Bills/Invoices",
     patterns := [
       rx "invoice|bill|payment due|amount due|due date|account summary|autopay|automatic payment|pay now|pay online|balance due|current charges|monthly statement|utility bill|electric bill|gas bill|water bill|internet bill|phone bill",
       rx "your .* bill is ready|bill available|payment reminder|past due"],
     senderPatterns := [
       rx "billing@|invoice@|payments?@|accounts?@|utility|electric|gas|water|comcast|verizon|at&t|t-mobile|sprint|xfinity|spectrum"],
     keywords := ["invoice", "bill", "payment", "due", "balance", "charges", "utility", "statement", "autopay", "overdue"],
     weight := 1.1 }]

/-- The configured category ids of the system (the `categories` table's
system rows and the classifier's pattern ids) together with
`"uncategorized"`. -/
def allowedCategories : List String :=
  ["uncategorized", "financial", "hr", "marketing", "important", "social", "shopping", "travel", "bills"]

/-- A concrete JS environment for witnesses: every regex pattern fails to
compile, every string is `NaN`, and dates parse to their length. -/
def plainEnv : JsEnv :=
  { regexCompile := fun _ => none, parseNum := fun _ => none,
    parseDate := fun s => (s.length : Int), now := "2024-06-01T00:00:00.000Z" }

/-- The stored rule of the spec's scenario: from contains `@bank.com` ⇒
categorize as financial. -/
def bankRule : Rule :=
  { id := "r1", name := "Categorize bank", enabled := true,
    conditions := [{ field := "from", operator := "contains", value := "@bank.com" }],
    actions := [{ type := "categorize", value := some "financial" }],
    provider := none, priority := 0, hitCount := 0, lastHit := none }

/-- The message of the spec's scenario. -/
def bankEmail : Email :=
  { id := "m1", accountId := "a1", fromAddr := "alerts@bank.com", fromName := none,
    toAddrs := ["me@example.com"], subject := "Your statement is ready", snippet := "",
    body := none, date := "2024-05-30T10:00:00.000Z", isRead := false,
    category := "uncategorized", attachments := [], size := 0,
    unsubscribeLink := none, hasUnsubscribe := false }

/-- The store holding exactly the scenario's rule and message. -/
def bankStore : Store := { rules := [bankRule], emails := [bankEmail], effects := [] }

/-- C2: the spec's own scenario refutes the hitCount bookkeeping. Applying the
`@bank.com ⇒ categorize financial` rule to the matching message does return
the categorize action, but the stored rule's `hitCount` stays 0 instead of
incrementing to 1 (and `lastHit` stays NULL): `RulesEngine.applyRulesToEmail`
hands `hitCount + 1` and `lastHit` to `DatabaseService.saveRule`, whose
`INSERT OR REPLACE` statement does not list the `hit_count`/`last_hit`
columns, so the replaced row falls back to their defaults. -/
theorem applyRules_hitCount_not_persisted :
    (applyRulesToEmail plainEnv bankStore bankEmail).1
        = [{ type := "categorize", value := some "financial" }]
    ∧ bankStore.rules.map (fun r => r.hitCount) = [0]
    ∧ ((applyRulesToEmail plainEnv bankStore bankEmail).2.rules.map (fun r => r.hitCount)) = [0]
    ∧ ((applyRulesToEmail plainEnv bankStore bankEmail).2.rules.map (fun r => r.lastHit)) = [none] := by
  decide

/-! ### Properties of the stable descending sort -/

theorem insertDesc_perm (gt : α → α → Bool) (a : α) (l : List α) :
    (insertDesc gt a l).Perm (a :: l) := by
  induction l with
  | nil => simp [insertDesc]
  | cons x xs ih =>
    by_cases h : gt x a
    · simpa [insertDesc, h] using (ih.cons x).trans (List.Perm.swap a x xs)
    · simp [insertDesc, h]

theorem sortByDesc_perm (gt : α → α → Bool) (l : List α) :
    (sortByDesc gt l).Perm l := by
  induction l with
  | nil => simp [sortByDesc]
  | cons a l ih => exact ((insertDesc_perm gt a (sortByDesc gt l)).trans (ih.cons a))

theorem mem_insertDesc (gt : α → α → Bool) (a : α) (l : List α) (y : α)
    (hy : y ∈ insertDesc gt a l) : y = a ∨ y ∈ l := by
  have := (insertDesc_perm gt a l).mem_iff.mp hy
  simpa using this

theorem insertDesc_pairwise (gt : α → α → Bool)
    (hasym : ∀ a b, gt a b = true → gt b a = false)
    (htrans : ∀ a b c, gt b a = false → gt c b = false → gt c a = false)
    (a : α) (l : List α) (hl : l.Pairwise (fun x y => gt y x = false)) :
    (insertDesc gt a l).Pairwise (fun x y => gt y x = false) := by
  induction l with
  | nil => simp [insertDesc]
  | cons x xs ih =>
    rcases List.pairwise_cons.mp hl with ⟨hx, hxs⟩
    by_cases h : gt x a
    · rw [insertDesc, if_pos h]
      refine List.pairwise_cons.mpr ⟨?_, ih hxs⟩
      intro y hy
      rcases mem_insertDesc gt a xs y hy with rfl | hmem
      · exact hasym x y h
      · exact hx y hmem
    · rw [insertDesc, if_neg h]
      have h' : gt x a = false := by simpa using h
      refine List.pairwise_cons.mpr ⟨?_, hl⟩
      intro y hy
      rcases List.mem_cons.mp hy with rfl | hmem
      · exact h'
      · exact htrans a x y h' (hx y hmem)

theorem sortByDesc_pairwise (gt : α → α → Bool)
    (hasym : ∀ a b, gt a b = true → gt b a = false)
    (htrans : ∀ a b c, gt b a = false → gt c b = false → gt c a = false)
    (l : List α) : (sortByDesc gt l).Pairwise (fun x y => gt y x = false) := by
  induction l with
  | nil => simp [sortByDesc]
  | cons a l ih => exact insertDesc_pairwise gt hasym htrans a (sortByDesc gt l) ih

theorem insertDesc_filter (gt : α → α → Bool) (p : α → Bool)
    (hp : ∀ a b, p a = true → p b = true → gt a b = false) (a : α) (l : List α) :
    (insertDesc gt a l).filter p = if p a then a :: l.filter p else l.filter p := by
  induction l with
  | nil => by_cases ha : p a <;> simp [insertDesc, ha]
  | cons x xs ih =>
    by_cases hgt : gt x a
    · rw [insertDesc, if_pos hgt]
      by_cases ha : p a
      · have hx : p x = false := by
          by_contra hxx
          have : gt x a = false := hp x a (by simpa using hxx) ha
          simp [hgt] at this
        simp [List.filter_cons, hx, ih, ha]
      · have ha' : p a = false := by simpa using ha
        simp [List.filter_cons, ih, ha']
    · rw [insertDesc, if_neg hgt]
      by_cases ha : p a <;> simp [List.filter_cons, ha]

theorem sortByDesc_filter (gt : α → α → Bool) (p : α → Bool)
    (hp : ∀ a b, p a = true → p b = true → gt a b = false) (l : List α) :
    (sortByDesc gt l).filter p = l.filter p := by
  induction l with
  | nil => simp [sortByDesc]
  | cons a l ih =>
    rw [sortByDesc, insertDesc_filter gt p hp a (sortByDesc gt l), ih, List.filter_cons]

/-! ### The rule evaluation pass (C1) -/

theorem applyLoop_fst (env : JsEnv) (email : Email) (rules : List Rule) :
    ∀ (st : Store) (acc : List RuleAction),
    (applyLoop env email rules st acc).1
      = acc ++ (rules.filter (fun r => matchesConditions env email r.conditions)).flatMap (fun r => r.actions) := by
  induction rules with
  | nil => intro st acc; simp [applyLoop]
  | cons r rs ih =>
    intro st acc
    by_cases h : matchesConditions env email r.conditions
    · simp [applyLoop, h, ih, List.filter_cons]
    · simp [applyLoop, h, ih, List.filter_cons]

theorem ruleGt_asym : ∀ a b : Rule, ruleGt a b = true → ruleGt b a = false := by
  intro a b h
  simp only [ruleGt, decide_eq_true_eq] at h
  simpa [ruleGt] using le_of_lt h

theorem ruleGt_letrans :
    ∀ a b c : Rule, ruleGt b a = false → ruleGt c b = false → ruleGt c a = false := by
  intro a b c h1 h2
  simp only [ruleGt, decide_eq_false_iff_not, not_lt] at h1 h2 ⊢
  exact h2.trans h1

/-- C1: one pass of `applyRulesToEmail` evaluates exactly the enabled rules
(the evaluation list is a permutation of them), in descending priority order,
with equal-priority rules kept in stored/creation order (filtering the
evaluation order to any one priority returns those rules exactly as stored);
it never stops early, and the returned list is the concatenation, in
evaluation order, of the actions of every rule whose full condition set
matches. -/
theorem applyRules_order_and_result (env : JsEnv) (st : Store) (email : Email) :
    (applyRulesToEmail env st email).1
      = ((evalOrder st).filter (fun r => matchesConditions env email r.conditions)).flatMap (fun r => r.actions)
    ∧ (∀ r ∈ evalOrder st, r.enabled = true)
    ∧ (evalOrder st).Perm (st.rules.filter (fun r => r.enabled))
    ∧ (evalOrder st).Pairwise (fun a b => b.priority ≤ a.priority)
    ∧ ∀ p : Int, (evalOrder st).filter (fun r => decide (r.priority = p))
        = (st.rules.filter (fun r => r.enabled)).filter (fun r => decide (r.priority = p)) := by
  have hperm : (evalOrder st).Perm (st.rules.filter (fun r => r.enabled)) := by
    have h1 := sortByDesc_perm ruleGt ((getRules st).filter (fun r => r.enabled))
    have h2 : ((getRules st).filter (fun r => r.enabled)).Perm (st.rules.filter (fun r => r.enabled)) :=
      (sortByDesc_perm ruleGt st.rules).filter _
    exact h1.trans h2
  refine ⟨applyLoop_fst env email (evalOrder st) st [], ?_, hperm, ?_, ?_⟩
  · intro r hr
    have : r ∈ st.rules.filter (fun r => r.enabled) := hperm.mem_iff.mp hr
    exact List.of_mem_filter this
  · have := sortByDesc_pairwise ruleGt ruleGt_asym ruleGt_letrans
      ((getRules st).filter (fun r => r.enabled))
    refine List.Pairwise.imp ?_ this
    intro a b h
    simpa [ruleGt, not_lt] using h
  · intro p
    have hp : ∀ a b : Rule, decide (a.priority = p) = true → decide (b.priority = p) = true →
        ruleGt a b = false := by
      intro a b ha hb
      simp only [decide_eq_true_eq] at ha hb
      simp [ruleGt, ha, hb]
    have houter := sortByDesc_filter ruleGt (fun r => decide (r.priority = p)) hp
      ((getRules st).filter (fun r => r.enabled))
    have hinner := sortByDesc_filter ruleGt (fun r => decide (r.priority = p)) hp st.rules
    calc (evalOrder st).filter (fun r => decide (r.priority = p))
        = ((getRules st).filter (fun r => r.enabled)).filter (fun r => decide (r.priority = p)) := houter
      _ = ((getRules st).filter (fun r => decide (r.priority = p))).filter (fun r => r.enabled) :=
          List.filter_comm _ _ _
      _ = (st.rules.filter (fun r => decide (r.priority = p))).filter (fun r => r.enabled) := by
          rw [getRules, hinner]
      _ = (st.rules.filter (fun r => r.enabled)).filter (fun r => decide (r.priority = p)) :=
          (List.filter_comm _ _ _).symm

/-! ### The category invariant (C3) -/

/-- Every stored message's category is a configured id or `"uncategorized"`. -/
def CatInv (st : Store) : Prop := ∀ e ∈ st.emails, e.category ∈ allowedCategories

/-- A rule whose `categorize` action carries the value `"foobar"`: nothing in
the engine validates the value. -/
def oddRule : Rule :=
  { id := "r2", name := "odd categorize", enabled := true,
    conditions := [{ field := "from", operator := "contains", value := "@bank.com" }],
    actions := [{ type := "categorize", value := some "foobar" }],
    provider := none, priority := 0, hitCount := 0, lastHit := none }

/-- A store holding the `"foobar"` rule and one matching message. -/
def oddStore : Store := { rules := [oddRule], emails := [bankEmail], effects := [] }

/-- C3 counterexample: a reachable rule action writes a category that is
neither a configured CategoryDefinition id nor `"uncategorized"`. -/
theorem categorize_escapes_configured_ids :
    ((applyRulesToEmail plainEnv oddStore bankEmail).2.emails.map (fun e => e.category)) = ["foobar"]
    ∧ "foobar" ∉ allowedCategories := by
  decide

theorem catInv_effects (st : Store) (eff : List ExtEffect) (h : CatInv st) :
    CatInv { st with effects := eff } := h

theorem catInv_markEmailsRead (st : Store) (ids : List String) (b : Bool) (h : CatInv st) :
    CatInv (markEmailsRead st ids b) := by
  intro e he
  simp only [markEmailsRead, List.mem_map] at he
  obtain ⟨x, hx, rfl⟩ := he
  by_cases hid : x.id ∈ ids <;> simp [hid] <;> exact h x hx

theorem catInv_updateEmailCategory (st : Store) (id : String) (cat : String)
    (hcat : cat ∈ allowedCategories) (h : CatInv st) :
    CatInv (updateEmailCategory st id cat) := by
  intro e he
  simp only [updateEmailCategory, List.mem_map] at he
  obtain ⟨x, hx, rfl⟩ := he
  by_cases hid : x.id = id <;> simp [hid]
  · exact hcat
  · exact h x hx

theorem catInv_executeAction (st : Store) (email : Email) (a : RuleAction)
    (ha : a.type = "categorize" → (a.value.getD "") ∈ allowedCategories)
    (h : CatInv st) : CatInv (executeAction st email a) := by
  unfold executeAction
  split_ifs with h1 h2 h3 h4 h5 h6
  · exact catInv_effects _ _ h
  · exact catInv_effects _ _ h
  · exact catInv_effects _ _ h
  · exact catInv_markEmailsRead _ _ _ h
  · exact catInv_markEmailsRead _ _ _ h
  · exact catInv_updateEmailCategory _ _ _ (ha h6) h
  · exact h

theorem catInv_executeActions (st : Store) (email : Email) (actions : List RuleAction)
    (ha : ∀ a ∈ actions, a.type = "categorize" → (a.value.getD "") ∈ allowedCategories)
    (h : CatInv st) : CatInv (executeActions st email actions) := by
  induction actions generalizing st with
  | nil => exact h
  | cons a rest ih =>
    exact ih _ (fun x hx => ha x (List.mem_cons_of_mem a hx))
      (catInv_executeAction st email a (ha a (List.mem_cons_self a rest)) h)

theorem catInv_dbSaveRule (st : Store) (r : Rule) (h : CatInv st) :
    CatInv (dbSaveRule st r) := h

theorem catInv_applyLoop (env : JsEnv) (email : Email) (rules : List Rule) :
    ∀ (st : Store) (acc : List RuleAction),
    (∀ r ∈ rules, ∀ a ∈ r.actions, a.type = "categorize" → (a.value.getD "") ∈ allowedCategories) →
    CatInv st → CatInv (applyLoop env email rules st acc).2 := by
  induction rules with
  | nil => intro st acc _ h; exact h
  | cons r rs ih =>
    intro st acc hr h
    by_cases hm : matchesConditions env email r.conditions
    · rw [applyLoop, if_pos hm]
      refine ih _ _ (fun x hx => hr x (List.mem_cons_of_mem r hx)) ?_
      exact catInv_executeActions _ email r.actions (hr r (List.mem_cons_self r rs))
        (catInv_dbSaveRule _ _ h)
    · rw [applyLoop, if_neg hm]
      exact ih _ _ (fun x hx => hr x (List.mem_cons_of_mem r hx)) h

theorem mem_evalOrder_mem_rules (st : Store) (r : Rule) (hr : r ∈ evalOrder st) :
    r ∈ st.rules := by
  have hperm := sortByDesc_perm ruleGt ((getRules st).filter (fun r => r.enabled))
  have h1 : r ∈ (getRules st).filter (fun r => r.enabled) := hperm.mem_iff.mp hr
  have h2 : r ∈ getRules st := List.mem_of_mem_filter h1
  exact (sortByDesc_perm ruleGt st.rules).mem_iff.mp h2

/-- The winner the score fold picks is the initial `'uncategorized'` or one of
the scored keys. -/
theorem bestOf_fst_mem (l : List (String × ℚ)) :
    (bestOf l).1 = "uncategorized" ∨ (bestOf l).1 ∈ l.map (fun p => p.1) := by
  suffices h : ∀ (acc : String × ℚ),
      (l.foldl (fun best p => if best.2 < p.2 then p else best) acc).1 = acc.1
      ∨ (l.foldl (fun best p => if best.2 < p.2 then p else best) acc).1 ∈ l.map (fun p => p.1) by
    simpa [bestOf] using h ("uncategorized", 0)
  induction l with
  | nil => intro acc; left; rfl
  | cons p l ih =>
    intro acc
    simp only [List.foldl_cons]
    rcases ih (if acc.2 < p.2 then p else acc) with h | h
    · by_cases hlt : acc.2 < p.2
      · right; rw [h, if_pos hlt]; simp
      · left; rw [h, if_neg hlt]
    · right; simp [h]

theorem mem_fst_jsMapSet (k : String) (v : ℚ) (l : List (String × ℚ)) (x : String)
    (hx : x ∈ (jsMapSet k v l).map (fun p => p.1)) :
    x = k ∨ x ∈ l.map (fun p => p.1) := by
  unfold jsMapSet at hx
  by_cases hany : l.any (fun p => p.1 == k)
  · rw [if_pos hany, List.map_map] at hx
    right
    simp only [List.mem_map, Function.comp] at hx ⊢
    obtain ⟨p, hp, hpx⟩ := hx
    refine ⟨p, hp, ?_⟩
    have hfst : (if p.1 == k then (p.1, v) else p).1 = p.1 := by
      by_cases hk : p.1 == k <;> simp [hk]
    rw [hfst] at hpx
    exact hpx
  · rw [if_neg hany] at hx
    simp only [List.map_append, List.mem_append] at hx
    rcases hx with h | h
    · right; exact h
    · left; simpa using h

theorem mem_fst_scoreFold (e : Email) (cfg : List CategoryPattern) :
    ∀ (acc : List (String × ℚ)) (x : String),
    x ∈ (cfg.foldl (fun sc c => jsMapSet c.id (scoreOf e c) sc) acc).map (fun p => p.1) →
    x ∈ acc.map (fun p => p.1) ∨ x ∈ cfg.map (fun c => c.id) := by
  induction cfg with
  | nil => intro acc x h; left; exact h
  | cons c cfg ih =>
    intro acc x h
    rcases ih (jsMapSet c.id (scoreOf e c) acc) x h with h' | h'
    · rcases mem_fst_jsMapSet c.id (scoreOf e c) acc x h' with heq | h''
      · right; rw [heq]; simp
      · left; exact h''
    · right; simp [h']

theorem mem_fst_genericScores (cfg : List CategoryPattern) (e : Email) (x : String)
    (hx : x ∈ (genericScores cfg e).map (fun p => p.1)) :
    x ∈ cfg.map (fun c => c.id) := by
  rcases mem_fst_scoreFold e cfg [] x hx with h | h
  · simp at h
  · exact h

theorem mem_fst_finalScores (cfg : List CategoryPattern) (e : Email) (x : String)
    (hx : x ∈ (finalScores cfg e).map (fun p => p.1)) :
    x = "marketing" ∨ x ∈ (genericScores cfg e).map (fun p => p.1) := by
  unfold finalScores at hx
  by_cases hu : e.hasUnsubscribe
  · rw [if_pos hu] at hx
    exact mem_fst_jsMapSet _ _ _ _ hx
  · rw [if_neg hu] at hx
    exact Or.inr hx

theorem classify_category_mem (cfg : List CategoryPattern) (e : Email) :
    (classify cfg e).category ∈ "uncategorized" :: "marketing" :: cfg.map (fun c => c.id) := by
  have hcat : (classify cfg e).category = (bestOf (finalScores cfg e)).1 := rfl
  rcases bestOf_fst_mem (finalScores cfg e) with h | h
  · rw [hcat, h]
    exact List.mem_cons_self _ _
  · rcases mem_fst_finalScores cfg e _ h with heq | hgen
    · rw [hcat, heq]
      exact List.mem_cons_of_mem _ (List.mem_cons_self _ _)
    · rw [hcat]
      exact List.mem_cons_of_mem _
        (List.mem_cons_of_mem _ (mem_fst_genericScores cfg e _ hgen))

/-- C3 (amended): the invariant holds for classification — `classify` over the
configured patterns always lands in a configured id or `"uncategorized"` — and
it is preserved by a rule pass provided every stored `categorize` action's
value is itself a configured id or `"uncategorized"`; an arbitrary `categorize`
value, which nothing validates, escapes the set
(`categorize_escapes_configured_ids`). -/
theorem category_invariant_amended (env : JsEnv) (st : Store) (email : Email)
    (hrules : ∀ r ∈ st.rules, ∀ a ∈ r.actions, a.type = "categorize" → (a.value.getD "") ∈ allowedCategories)
    (hinv : CatInv st) :
    CatInv (applyRulesToEmail env st email).2
    ∧ ∀ (rx : String → List Char → Bool) (e : Email),
        (classify (categoryPatternsCfg rx) e).category ∈ allowedCategories := by
  constructor
  · exact catInv_applyLoop env email (evalOrder st) st []
      (fun r hr => hrules r (mem_evalOrder_mem_rules st r hr)) hinv
  · intro rx e
    have h := classify_category_mem (categoryPatternsCfg rx) e
    have hids : (categoryPatternsCfg rx).map (fun c => c.id)
        = ["financial", "hr", "marketing", "important", "social", "shopping", "travel", "bills"] := rfl
    rw [hids] at h
    simp only [List.mem_cons, List.not_mem_nil, or_false] at h
    rcases h with h | h | h | h | h | h | h | h | h | h <;> rw [h] <;> decide

/-- Witness for the amended C3 at the concrete scenario store. -/
theorem category_invariant_amended_witness :
    CatInv (applyRulesToEmail plainEnv bankStore bankEmail).2
    ∧ ∀ (rx : String → List Char → Bool) (e : Email),
        (classify (categoryPatternsCfg rx) e).category ∈ allowedCategories :=
  category_invariant_amended plainEnv bankStore bankEmail (by decide)
    (by unfold CatInv; decide)

/-! ### Fail-closed condition evaluation (C5) -/

/-- The fields `matchesCondition`'s switch recognizes. -/
def knownFields : List String :=
  ["from", "to", "subject", "body", "category", "date", "hasAttachment", "size"]

/-- The operators `matchesCondition`'s switch recognizes. -/
def knownOperators : List String :=
  ["contains", "equals", "startsWith", "endsWith", "regex", "before", "after", "greaterThan", "lessThan"]

theorem getFieldValue_unknown_field (e : Email) (f : String) (h : f ∉ knownFields) :
    getFieldValue e f = none := by
  unfold getFieldValue
  split_ifs with h1 h2 h3 h4 h5 h6 h7 h8 <;> first | rfl | simp_all [knownFields]

theorem matchesCondition_unknown_field (env : JsEnv) (email : Email) (c : RuleCondition)
    (h : c.field ∉ knownFields) : matchesCondition env email c = false := by
  unfold matchesCondition
  rw [getFieldValue_unknown_field email c.field h]

theorem matchesCondition_unknown_op (env : JsEnv) (email : Email) (c : RuleCondition)
    (h : c.operator ∉ knownOperators) : matchesCondition env email c = false := by
  unfold matchesCondition
  cases hgf : getFieldValue email c.field with
  | none => rfl
  | some fv =>
    simp only []
    split_ifs <;> simp_all [knownOperators]

theorem matchesCondition_regex_malformed (env : JsEnv) (email : Email) (c : RuleCondition)
    (hop : c.operator = "regex") (hrx : env.regexCompile c.value = none) :
    matchesCondition env email c = false := by
  unfold matchesCondition
  cases hgf : getFieldValue email c.field with
  | none => rfl
  | some fv => simp [hop, hrx]

/-- C5: a condition with a malformed regex pattern (the `RegExp` constructor
throws, the catch returns false), an unrecognized field, or an unrecognized
operator evaluates to false — the embedding is a total function, so no error
escapes — and any rule containing such a condition matches no message. -/
theorem condition_fail_closed (env : JsEnv) (email : Email) (c : RuleCondition)
    (conds : List RuleCondition) (hc : c ∈ conds)
    (h : (c.operator = "regex" ∧ env.regexCompile c.value = none)
        ∨ c.field ∉ knownFields ∨ c.operator ∉ knownOperators) :
    matchesCondition env email c = false ∧ matchesConditions env email conds = false := by
  have hfalse : matchesCondition env email c = false := by
    rcases h with ⟨hop, hrx⟩ | hf | hop
    · exact matchesCondition_regex_malformed env email c hop hrx
    · exact matchesCondition_unknown_field env email c hf
    · exact matchesCondition_unknown_op env email c hop
  refine ⟨hfalse, ?_⟩
  unfold matchesConditions
  exact List.all_eq_false.mpr ⟨c, hc, by simp [hfalse]⟩

/-- A condition whose regex pattern is malformed (an unclosed group). -/
def badRegexCondition : RuleCondition :=
  { field := "subject", operator := "regex", value := "(" }

/-- Witness for C5: the malformed-regex condition of `badRegexCondition`
evaluates to false under an environment whose compiler rejects the pattern,
and the rule made of it matches nothing. -/
theorem condition_fail_closed_witness :
    matchesCondition plainEnv bankEmail badRegexCondition = false
    ∧ matchesConditions plainEnv bankEmail [badRegexCondition] = false :=
  condition_fail_closed plainEnv bankEmail badRegexCondition [badRegexCondition]
    (by decide) (Or.inl ⟨rfl, rfl⟩)

/-! ### Missing rule ids (C6) -/

/-- C6 counterexample: `deleteRule` on an id absent from the store does not
raise `'Rule not found'` — it silently succeeds (`RulesEngine.deleteRule`
delegates to the SQL `DELETE` with no existence check), leaving the store
as it was. -/
theorem deleteRule_missing_id_no_error :
    deleteRule bankStore "missing" = (Except.ok (), bankStore) := by
  rfl

/-- C6 (amended): for an id with no stored rule, `updateRule` and `testRule`
throw `'Rule not found'` and leave the store unchanged, while `deleteRule`
performs no existence check: it raises nothing and also leaves the store
unchanged. -/
theorem missing_rule_id_behavior (env : JsEnv) (st : Store) (ruleId : String)
    (u : RuleUpdates) (h : getRule st ruleId = none) :
    updateRule st ruleId u = (.error "Rule not found", st)
    ∧ testRule env st ruleId = (.error "Rule not found", st)
    ∧ deleteRule st ruleId = (.ok (), st) := by
  refine ⟨?_, ?_, ?_⟩
  · unfold updateRule
    rw [h]
  · unfold testRule
    rw [h]
  · unfold deleteRule dbDeleteRule
    have hall : st.rules.filter (fun x => decide (x.id ≠ ruleId)) = st.rules := by
      apply List.filter_eq_self.mpr
      intro r hr
      have hne : ¬(r.id == ruleId) = true := List.find?_eq_none.mp h r hr
      simpa using hne
    rw [hall]

/-- Witness for the amended C6 at a store that does not contain `"nope"`. -/
theorem missing_rule_id_behavior_witness :
    updateRule bankStore "nope" {} = (.error "Rule not found", bankStore)
    ∧ testRule plainEnv bankStore "nope" = (.error "Rule not found", bankStore)
    ∧ deleteRule bankStore "nope" = (.ok (), bankStore) :=
  missing_rule_id_behavior plainEnv bankStore "nope" {} (by rfl)

/-! ### testRule is a dry run (C7) -/

/-- The matches of a rule's conditions over the bounded recent window
(`getEmails({limit: 1000})`) that `testRule` samples and counts. -/
def windowMatches (env : JsEnv) (st : Store) (rule : Rule) : List Email :=
  (getEmailsLimit st 1000).filter (fun e => matchesConditions env e rule.conditions)

/-- C7: for an existing rule, `testRule` leaves the store — rules (hence every
`hitCount`/`lastHit`), emails and the external-effect trace — unchanged, and
returns at most 10 sample matches together with the total count of matches
over the 1000-most-recent window. -/
theorem testRule_dry_run (env : JsEnv) (st : Store) (ruleId : String) (rule : Rule)
    (h : getRule st ruleId = some rule) :
    (testRule env st ruleId).2 = st
    ∧ (testRule env st ruleId).1
        = .ok ⟨(windowMatches env st rule).take 10, (windowMatches env st rule).length⟩
    ∧ ∀ out, (testRule env st ruleId).1 = .ok out → out.matchingEmails.length ≤ 10 := by
  unfold testRule
  rw [h]
  refine ⟨rfl, rfl, ?_⟩
  intro out hout
  cases hout
  simp [List.length_take]

/-- Witness for C7 at the scenario store and its stored rule `r1`. -/
theorem testRule_dry_run_witness :
    (testRule plainEnv bankStore "r1").2 = bankStore
    ∧ (testRule plainEnv bankStore "r1").1
        = .ok ⟨(windowMatches plainEnv bankStore bankRule).take 10,
            (windowMatches plainEnv bankStore bankRule).length⟩
    ∧ ∀ out, (testRule plainEnv bankStore "r1").1 = .ok out → out.matchingEmails.length ≤ 10 :=
  testRule_dry_run plainEnv bankStore "r1" bankRule (by rfl)

/-! ### bulkUnsubscribe counts (C8) -/

theorem getEmail_effects (st : Store) (eff : List ExtEffect) (i : String) :
    getEmail { st with effects := eff } i = getEmail st i := rfl

/-- The unsubscribe link `bulkUnsubscribe` sees for an id, as a function of
the email table alone (the loop only ever appends effects to the store). -/
def linkOf (ems : List Email) (i : String) : Option String :=
  jsTruthyLink (ems.find? (fun e => e.id == i))

theorem bulkGo_spec (ids : List String) :
    ∀ (st : Store) (acc : UnsubOutcome) (ems : List Email), st.emails = ems →
    (bulkGo st ids acc).1.processed
      = acc.processed + (ids.filter (fun i => (linkOf ems i).isSome)).length
    ∧ (bulkGo st ids acc).1.links = acc.links ++ ids.filterMap (fun i => linkOf ems i)
    ∧ (bulkGo st ids acc).1.processed + (bulkGo st ids acc).1.skipped
      = acc.processed + acc.skipped + ids.length := by
  induction ids with
  | nil => intro st acc ems _; simp [bulkGo]
  | cons id rest ih =>
    intro st acc ems hems
    have hlink0 : jsTruthyLink (getEmail st id) = linkOf ems id := by
      rw [getEmail, hems, linkOf]
    cases hlink : linkOf ems id with
    | some link =>
      have hl : jsTruthyLink (getEmail st id) = some link := by rw [hlink0, hlink]
      have h := ih { st with effects := st.effects ++ [.openLink link] }
        { acc with processed := acc.processed + 1, links := acc.links ++ [link] } ems hems
      rw [bulkGo, hl]
      refine ⟨?_, ?_, ?_⟩
      · rw [h.1, List.filter_cons, hlink]
        simp only [Option.isSome_some, if_true, List.length_cons]
        show acc.processed + 1 + _ = acc.processed + _
        omega
      · rw [h.2.1, List.filterMap_cons, hlink]
        simp
      · rw [h.2.2]
        show acc.processed + 1 + acc.skipped + rest.length = acc.processed + acc.skipped + (id :: rest).length
        simp only [List.length_cons]
        omega
    | none =>
      have hl : jsTruthyLink (getEmail st id) = none := by rw [hlink0, hlink]
      have h := ih st { acc with skipped := acc.skipped + 1 } ems hems
      rw [bulkGo, hl]
      refine ⟨?_, ?_, ?_⟩
      · rw [h.1, List.filter_cons, hlink]
        simp
      · rw [h.2.1, List.filterMap_cons, hlink]
      · rw [h.2.2]
        show acc.processed + (acc.skipped + 1) + rest.length = acc.processed + acc.skipped + (id :: rest).length
        simp only [List.length_cons]
        omega

/-- C8 (amended): `bulkUnsubscribe` reports `processed + skipped =
ids.length`; `processed` counts exactly the ids whose stored message carries a
truthy unsubscribe link — non-null *and non-empty*, since JS `if
(email?.unsubscribeLink)` treats the empty string as falsy (ids with no
stored message or a null/empty link are skipped) — and `links` is exactly
those ids' links, in order. -/
theorem bulkUnsubscribe_counts (st : Store) (ids : List String) :
    (bulkUnsubscribe st ids).1.processed + (bulkUnsubscribe st ids).1.skipped = ids.length
    ∧ (bulkUnsubscribe st ids).1.processed
      = (ids.filter (fun i => (jsTruthyLink (getEmail st i)).isSome)).length
    ∧ (bulkUnsubscribe st ids).1.links
      = ids.filterMap (fun i => jsTruthyLink (getEmail st i)) := by
  have h := bulkGo_spec ids st { processed := 0, skipped := 0, links := [] } st.emails rfl
  exact ⟨by simpa using h.2.2, by simpa using h.1, by simpa using h.2.1⟩

/-- A stored message whose unsubscribe link is present but empty — non-null,
yet falsy in JS. -/
def emptyLinkEmail : Email :=
  { id := "m2", accountId := "a1", fromAddr := "news@shop.example", fromName := none,
    toAddrs := ["me@example.com"], subject := "Weekly deals", snippet := "deals",
    body := none, date := "2024-05-01T00:00:00.000Z", isRead := false,
    category := "marketing", attachments := [], size := 0,
    unsubscribeLink := some "", hasUnsubscribe := true }

/-- The store holding only that message. -/
def emptyLinkStore : Store := { rules := [], emails := [emptyLinkEmail], effects := [] }

/-- C8 counterexample: an id whose stored message has a non-null unsubscribe
link (the empty string) is counted skipped, not processed, so `processed` does
not count exactly the ids with a non-null link. -/
theorem bulkUnsubscribe_empty_link_skipped :
    ((getEmail emptyLinkStore "m2").bind (fun e => e.unsubscribeLink)) = some ""
    ∧ (bulkUnsubscribe emptyLinkStore ["m2"]).1.processed = 0
    ∧ (bulkUnsubscribe emptyLinkStore ["m2"]).1.skipped = 1
    ∧ (bulkUnsubscribe emptyLinkStore ["m2"]).1.links = [] := by
  decide

/-! ### findDuplicates (C9) -/

theorem dupDateGt_asym (env : JsEnv) :
    ∀ a b : Email, dupDateGt env a b = true → dupDateGt env b a = false := by
  intro a b h
  simp only [dupDateGt, decide_eq_true_eq] at h
  simpa [dupDateGt] using le_of_lt h

theorem dupDateGt_letrans (env : JsEnv) :
    ∀ a b c : Email, dupDateGt env b a = false → dupDateGt env c b = false →
    dupDateGt env c a = false := by
  intro a b c h1 h2
  simp only [dupDateGt, decide_eq_false_iff_not, not_lt] at h1 h2 ⊢
  exact h2.trans h1

/-- Two messages sharing no subject and no sender whose `'|'`-joined grouping
keys nevertheless coincide: subject `a|b` with sender `c` versus subject `a`
with sender `b|c` both hash to `a|b|c|`. -/
def collideEmailA : Email :=
  { id := "dupA", accountId := "a1", fromAddr := "c", fromName := none,
    toAddrs := [], subject := "a|b", snippet := "", body := none,
    date := "2024-01-01", isRead := false, category := "uncategorized",
    attachments := [], size := 0, unsubscribeLink := none, hasUnsubscribe := false }

/-- The partner of `collideEmailA` in the key collision. -/
def collideEmailB : Email :=
  { id := "dupB", accountId := "a1", fromAddr := "b|c", fromName := none,
    toAddrs := [], subject := "a", snippet := "", body := none,
    date := "2024-01-01", isRead := false, category := "uncategorized",
    attachments := [], size := 0, unsubscribeLink := none, hasUnsubscribe := false }

/-- C9 counterexample: `findDuplicates` does not group by the triple
(lower-cased trimmed subject, lower-cased sender address, lower-cased first 50
snippet characters) — it groups by the `'|'`-joined string of the three parts
(`[subject, from, snippet50].join('|')`), and the join conflates distinct
triples. `collideEmailA` and `collideEmailB` differ in subject and differ in
sender, yet share one `dupKey` and come back as a single size-2 duplicate
group. -/
theorem findDuplicates_key_collision :
    collideEmailA.subject ≠ collideEmailB.subject
    ∧ collideEmailA.fromAddr ≠ collideEmailB.fromAddr
    ∧ dupKey collideEmailA = dupKey collideEmailB
    ∧ (findDuplicateGroups plainEnv [collideEmailA, collideEmailB]).map
        (fun g => g.emails.map (fun e => e.id)) = [["dupA", "dupB"]] := by
  decide

/-- C9 (amended): `findDuplicates` is deterministic (a pure function of the
message list, so two runs on an unchanged set agree, canonical members
included), and every returned group has more than one member, contains exactly
the messages sharing its `dupKey` grouping key — the `'|'`-joined string of
lower-cased trimmed subject, lower-cased sender and lower-cased first 50
snippet characters, which coincides with the triple of those parts except
that the join conflates components containing `'|'`
(`findDuplicates_key_collision`) — ordered by parsed date descending, so the
head — the canonical member — is newest. -/
theorem findDuplicates_groups_spec (env : JsEnv) (emails : List Email) :
    findDuplicateGroups env emails = findDuplicateGroups env emails
    ∧ ∀ g ∈ findDuplicateGroups env emails,
        1 < g.emails.length
        ∧ (∀ e ∈ g.emails, dupKey e = g.hash)
        ∧ g.emails.Pairwise (fun a b => env.parseDate b.date ≤ env.parseDate a.date)
        ∧ (∀ e ∈ g.emails, env.parseDate e.date ≤ env.parseDate ((g.emails.headD emptyEmail).date))
        ∧ g.emails.Perm (emails.filter (fun e => decide (dupKey e = g.hash))) := by
  refine ⟨rfl, ?_⟩
  intro g hg
  unfold findDuplicateGroups at hg
  simp only [List.mem_map, List.mem_filter] at hg
  obtain ⟨gp, ⟨hgp, hlen⟩, hgdef⟩ := hg
  obtain ⟨k, hk, rfl⟩ := hgp
  subst hgdef
  have hperm : (sortByDesc (dupDateGt env) (emails.filter (fun e => decide (dupKey e = k)))).Perm
      (emails.filter (fun e => decide (dupKey e = k))) :=
    sortByDesc_perm _ _
  have hpw0 := sortByDesc_pairwise (dupDateGt env) (dupDateGt_asym env) (dupDateGt_letrans env)
    (emails.filter (fun e => decide (dupKey e = k)))
  have hpw : (sortByDesc (dupDateGt env) (emails.filter (fun e => decide (dupKey e = k)))).Pairwise
      (fun a b => env.parseDate b.date ≤ env.parseDate a.date) := by
    refine List.Pairwise.imp ?_ hpw0
    intro a b h
    simpa [dupDateGt, not_lt] using h
  refine ⟨?_, ?_, hpw, ?_, hperm⟩
  · simpa [hperm.length_eq] using hlen
  · intro e he
    have := hperm.mem_iff.mp he
    have := List.of_mem_filter this
    simpa using this
  · intro e he
    rcases hl : sortByDesc (dupDateGt env) (emails.filter (fun e => decide (dupKey e = k))) with _ | ⟨a, t⟩
    · rw [hl] at he
      simp at he
    · rw [hl] at he hpw
      rcases List.mem_cons.mp he with rfl | hmem
      · simp [hl]
      · simp only [hl, List.headD_cons]
        exact (List.pairwise_cons.mp hpw).1 e hmem

/-! ### findLargeAttachments (C10) -/

/-- C10 counterexample: with an explicit threshold of 0 bytes, every message's
attachment sum meets the threshold (`0 ≤ sum`), so the claim demands every
message back; but `options.minSize || 5MB` treats 0 as absent (JS falsiness),
applies the 5 MiB default, and returns nothing for an attachment-free
message. -/
theorem findLargeAttachments_zero_threshold :
    findLargeAttachments (some 0) [bankEmail] = []
    ∧ [bankEmail].filter (fun e => decide (0 ≤ sumAttachmentSizes e)) = [bankEmail] := by
  decide

/-- C10 (amended): for every *positive* threshold, `findLargeAttachments`
returns exactly the messages whose summed attachment sizes meet or exceed it;
an absent threshold — or a zero threshold, which JS `||` conflates with
absent — defaults to 5 MiB (5 × 1024 × 1024 bytes). -/
theorem findLargeAttachments_threshold_filter (emails : List Email) (n : Nat)
    (h : 0 < n) (e : Email) :
    (e ∈ findLargeAttachments (some n) emails ↔ e ∈ emails ∧ n ≤ sumAttachmentSizes e)
    ∧ (e ∈ findLargeAttachments none emails ↔ e ∈ emails ∧ 5 * 1024 * 1024 ≤ sumAttachmentSizes e)
    ∧ findLargeAttachments (some 0) emails = findLargeAttachments none emails := by
  have hn : ¬ n = 0 := Nat.pos_iff_ne_zero.mp h
  refine ⟨?_, ?_, ?_⟩
  · simp [findLargeAttachments, hn, List.mem_filter]
  · simp [findLargeAttachments, List.mem_filter]
  · simp [findLargeAttachments]

/-- Witness for the amended C10 at threshold 1 on a one-message list. -/
theorem findLargeAttachments_threshold_filter_witness :
    (bankEmail ∈ findLargeAttachments (some 1) [bankEmail]
      ↔ bankEmail ∈ [bankEmail] ∧ 1 ≤ sumAttachmentSizes bankEmail)
    ∧ (bankEmail ∈ findLargeAttachments none [bankEmail]
      ↔ bankEmail ∈ [bankEmail] ∧ 5 * 1024 * 1024 ≤ sumAttachmentSizes bankEmail)
    ∧ findLargeAttachments (some 0) [bankEmail] = findLargeAttachments none [bankEmail] :=
  findLargeAttachments_threshold_filter [bankEmail] 1 (by decide) bankEmail

/-! ### classify picks the first strictly-highest positive score (C4) -/

/-- Running maximum of the scores, seeded at `m`. -/
def foldMax (l : List (String × ℚ)) (m : ℚ) : ℚ :=
  l.foldl (fun m p => max m p.2) m

/-- The maximum accumulated score, floored at the loop's initial 0. -/
def maxSnd (l : List (String × ℚ)) : ℚ := foldMax l 0

/-- The spec's selection rule, stated independently of the loop: the first
entry in configuration order whose score attains the maximum, provided that
maximum is strictly above zero; otherwise `"uncategorized"`. -/
def specWinner (l : List (String × ℚ)) : String :=
  match l.find? (fun p => decide (maxSnd l ≤ p.2 ∧ 0 < p.2)) with
  | some p => p.1
  | none => "uncategorized"

theorem le_foldMax (l : List (String × ℚ)) : ∀ m : ℚ, m ≤ foldMax l m := by
  induction l with
  | nil => intro m; exact le_refl m
  | cons p l ih =>
    intro m
    exact (le_max_left m p.2).trans (ih (max m p.2))

theorem foldMax_mem_le (l : List (String × ℚ)) :
    ∀ (m : ℚ) (q : String × ℚ), q ∈ l → q.2 ≤ foldMax l m := by
  induction l with
  | nil => intro m q hq; simp at hq
  | cons p l ih =>
    intro m q hq
    rcases List.mem_cons.mp hq with rfl | hmem
    · exact (le_max_right m q.2).trans (le_foldMax l (max m q.2))
    · exact ih (max m p.2) q hmem

theorem foldMax_attained (l : List (String × ℚ)) :
    ∀ m : ℚ, foldMax l m = m ∨ ∃ q ∈ l, foldMax l m = q.2 := by
  induction l with
  | nil => intro m; left; rfl
  | cons p l ih =>
    intro m
    rcases ih (max m p.2) with h | ⟨q, hq, hqe⟩
    · rcases max_choice m p.2 with hm | hm
      · left
        show foldMax l (max m p.2) = m
        rw [h, hm]
      · right
        exact ⟨p, List.mem_cons_self p l, by show foldMax l (max m p.2) = p.2; rw [h, hm]⟩
    · right
      exact ⟨q, List.mem_cons_of_mem p hq, hqe⟩

theorem find?_congr_mem {p q : α → Bool} (l : List α) (h : ∀ x ∈ l, p x = q x) :
    l.find? p = l.find? q := by
  induction l with
  | nil => rfl
  | cons a l ih =>
    have ha := h a (List.mem_cons_self a l)
    rw [List.find?_cons, List.find?_cons, ha]
    cases hq : q a
    · exact ih (fun x hx => h x (List.mem_cons_of_mem a hx))
    · rfl

theorem bestFold_fst (l : List (String × ℚ)) :
    ∀ acc : String × ℚ,
    (l.foldl (fun best p => if best.2 < p.2 then p else best) acc).1
      = match l.find? (fun p => decide (foldMax l acc.2 ≤ p.2 ∧ acc.2 < p.2)) with
        | some p => p.1
        | none => acc.1 := by
  induction l with
  | nil => intro acc; rfl
  | cons p l ih =>
    intro acc
    simp only [List.foldl_cons]
    by_cases hlt : acc.2 < p.2
    · rw [if_pos hlt]
      have hmaxeq : foldMax (p :: l) acc.2 = foldMax l p.2 := by
        show foldMax l (max acc.2 p.2) = foldMax l p.2
        rw [max_eq_right (le_of_lt hlt)]
      by_cases hmax : foldMax l p.2 ≤ p.2
      · have hcondp : decide (foldMax (p :: l) acc.2 ≤ p.2 ∧ acc.2 < p.2) = true := by
          rw [hmaxeq]
          exact decide_eq_true ⟨hmax, hlt⟩
        have hfcons : (p :: l).find? (fun q => decide (foldMax (p :: l) acc.2 ≤ q.2 ∧ acc.2 < q.2))
            = some p := by
          rw [List.find?_cons]
          simp only [hcondp]
        rw [hfcons, ih p]
        have hnone : l.find? (fun q => decide (foldMax l p.2 ≤ q.2 ∧ p.2 < q.2)) = none := by
          apply List.find?_eq_none.mpr
          intro q hq hcond
          have hc := of_decide_eq_true hcond
          exact absurd (lt_of_lt_of_le hc.2 ((foldMax_mem_le l p.2 q hq).trans hmax)) (lt_irrefl p.2)
        rw [hnone]
      · have hplt : p.2 < foldMax l p.2 := not_le.mp hmax
        have hcondp : decide (foldMax (p :: l) acc.2 ≤ p.2 ∧ acc.2 < p.2) = false := by
          rw [hmaxeq]
          apply decide_eq_false
          intro hc
          exact absurd (lt_of_lt_of_le hplt hc.1) (lt_irrefl p.2)
        have hfcons : (p :: l).find? (fun q => decide (foldMax (p :: l) acc.2 ≤ q.2 ∧ acc.2 < q.2))
            = l.find? (fun q => decide (foldMax (p :: l) acc.2 ≤ q.2 ∧ acc.2 < q.2)) := by
          rw [List.find?_cons]
          simp only [hcondp]
        rw [hfcons, ih p]
        have hcongr : l.find? (fun q => decide (foldMax l p.2 ≤ q.2 ∧ p.2 < q.2))
            = l.find? (fun q => decide (foldMax (p :: l) acc.2 ≤ q.2 ∧ acc.2 < q.2)) := by
          apply find?_congr_mem
          intro x hx
          rw [hmaxeq]
          by_cases hA : foldMax l p.2 ≤ x.2
          · have h1 : p.2 < x.2 := lt_of_lt_of_le hplt hA
            have h2 : acc.2 < x.2 := hlt.trans h1
            rw [decide_eq_true ⟨hA, h1⟩, decide_eq_true ⟨hA, h2⟩]
          · rw [decide_eq_false (fun hc => hA hc.1), decide_eq_false (fun hc => hA hc.1)]
        rw [← hcongr]
        rcases foldMax_attained l p.2 with hat | ⟨q0, hq0, hq0e⟩
        · exact absurd (lt_of_lt_of_le hplt (le_of_eq hat)) (lt_irrefl p.2)
        · rcases hfind : l.find? (fun q => decide (foldMax l p.2 ≤ q.2 ∧ p.2 < q.2)) with _ | r
          · exact absurd (decide_eq_true ⟨le_of_eq hq0e, hq0e ▸ hplt⟩)
              (List.find?_eq_none.mp hfind q0 hq0)
          · rw [hfind]
    · rw [if_neg hlt]
      have hmaxeq : foldMax (p :: l) acc.2 = foldMax l acc.2 := by
        show foldMax l (max acc.2 p.2) = foldMax l acc.2
        rw [max_eq_left (not_lt.mp hlt)]
      have hcondp : decide (foldMax (p :: l) acc.2 ≤ p.2 ∧ acc.2 < p.2) = false :=
        decide_eq_false (fun hc => hlt hc.2)
      have hfcons : (p :: l).find? (fun q => decide (foldMax (p :: l) acc.2 ≤ q.2 ∧ acc.2 < q.2))
          = l.find? (fun q => decide (foldMax (p :: l) acc.2 ≤ q.2 ∧ acc.2 < q.2)) := by
        rw [List.find?_cons]
        simp only [hcondp]
      rw [hfcons, ih acc]
      have hcongr : l.find? (fun q => decide (foldMax l acc.2 ≤ q.2 ∧ acc.2 < q.2))
          = l.find? (fun q => decide (foldMax (p :: l) acc.2 ≤ q.2 ∧ acc.2 < q.2)) := by
        apply find?_congr_mem
        intro x hx
        rw [hmaxeq]
      rw [← hcongr]

theorem bestOf_eq_specWinner (l : List (String × ℚ)) : (bestOf l).1 = specWinner l := by
  have h := bestFold_fst l ("uncategorized", 0)
  have hm : foldMax l (("uncategorized", (0 : ℚ))).2 = maxSnd l := rfl
  rw [hm] at h
  exact h

/-- C4: `classify` returns exactly the spec's winner — the first category in
configuration order whose accumulated score (content patterns 2×weight,
sender patterns 3×weight, keywords 0.5×weight, with the marketing unsubscribe
bonus applied after the generic pass, all inside `finalScores`) attains the
strictly positive maximum; when every score is ≤ 0 the result is
`"uncategorized"`, and when some score is positive the winner carries the
maximum score. -/
theorem classify_argmax (cfg : List CategoryPattern) (e : Email) :
    (classify cfg e).category = specWinner (finalScores cfg e)
    ∧ ((∀ p ∈ finalScores cfg e, p.2 ≤ 0) → (classify cfg e).category = "uncategorized")
    ∧ ((∃ p ∈ finalScores cfg e, 0 < p.2) →
        ∃ q ∈ finalScores cfg e, (classify cfg e).category = q.1
          ∧ maxSnd (finalScores cfg e) ≤ q.2 ∧ 0 < q.2) := by
  have hmain : (classify cfg e).category = specWinner (finalScores cfg e) := by
    have hcat : (classify cfg e).category = (bestOf (finalScores cfg e)).1 := rfl
    rw [hcat]
    exact bestOf_eq_specWinner (finalScores cfg e)
  refine ⟨hmain, ?_, ?_⟩
  · intro hle
    rw [hmain]
    unfold specWinner
    have hnone : (finalScores cfg e).find? (fun p => decide (maxSnd (finalScores cfg e) ≤ p.2 ∧ 0 < p.2)) = none := by
      apply List.find?_eq_none.mpr
      intro q hq hcond
      have hc := of_decide_eq_true hcond
      exact absurd (lt_of_lt_of_le hc.2 (hle q hq)) (lt_irrefl 0)
    rw [hnone]
  · intro ⟨p, hp, hppos⟩
    have hmaxpos : 0 < maxSnd (finalScores cfg e) :=
      lt_of_lt_of_le hppos (foldMax_mem_le (finalScores cfg e) 0 p hp)
    rcases foldMax_attained (finalScores cfg e) 0 with hat | ⟨q0, hq0, hq0e⟩
    · have hmax0 : maxSnd (finalScores cfg e) = 0 := hat
      exact absurd (lt_of_lt_of_le hmaxpos (le_of_eq hmax0)) (lt_irrefl 0)
    · have hq0e' : maxSnd (finalScores cfg e) = q0.2 := hq0e
      rcases hfind : (finalScores cfg e).find? (fun q => decide (maxSnd (finalScores cfg e) ≤ q.2 ∧ 0 < q.2)) with _ | r
      · exact absurd (decide_eq_true ⟨le_of_eq hq0e', hq0e' ▸ hmaxpos⟩)
          (List.find?_eq_none.mp hfind q0 hq0)
      · have hr : maxSnd (finalScores cfg e) ≤ r.2 ∧ 0 < r.2 := by
          have hr0 := List.find?_some hfind
          exact of_decide_eq_true hr0
        refine ⟨r, List.mem_of_find?_eq_some hfind, ?_, hr.1, hr.2⟩
        rw [hmain]
        unfold specWinner
        rw [hfind]

end CMail

